import Mathlib

/-!
Verification of the DUIMP timeline/table exporter scripts.

The development shallowly embeds the three scripts of the repository:
* `chart_script.py` — phase records, the `status_colors` dictionary, the
  plotly trace-building loop (legend de-duplication via `showlegend`),
  the layout (`categoryarray`, hardcoded x-axis range).
* `script.py` / `script copy.py` — DataFrame construction from records and
  CSV export via `to_csv(..., index=False)`.

Dates are modelled as parsed year/month/day triples (`pd.to_datetime` on a
`YYYY-MM-DD` string, with real calendar validation); parse failure aborts the
pipeline, as an exception would.  Missing values (the `NaN` that `Series.map`
produces for a key absent from the dictionary) are modelled as `none`; the
`ValueError` that `go.Scatter` raises when its `line.color` property receives
such a `NaN` (its plain color validator has no colorscale path) is modelled
by the trace constructor returning `none`, which aborts the pipeline.
-/

/-- A phase record, as in the `data["fases"]` literal of `chart_script.py`. -/
structure PhaseRecord where
  nome : String
  periodo : String
  modal : String
  status : String
  inicio : String
  fim : String
deriving DecidableEq

/-- The five-phase literal dataset of `chart_script.py`. -/
def fases : List PhaseRecord :=
  [ ⟨"Fase 1", "Out-Dez 2024", "Modal Marítimo", "Implementado", "2024-10-01", "2024-12-31"⟩,
    ⟨"Fase 2A", "Jan-Mar 2025", "Modal Aéreo", "Implementado", "2025-01-01", "2025-03-31"⟩,
    ⟨"Fase 2B", "Abr-Jun 2025", "Modal Aéreo (cont.)", "Em Andamento", "2025-04-01", "2025-06-30"⟩,
    ⟨"Fase 3A", "Jul-Set 2025", "Modal Terrestre", "Em Andamento", "2025-07-01", "2025-09-30"⟩,
    ⟨"Fase 3B", "Out-Dez 2025", "Zona Franca Manaus", "Previsto", "2025-10-01", "2025-12-31"⟩ ]

/-- A calendar date as parsed by `pd.to_datetime` from a `YYYY-MM-DD` string. -/
structure Date where
  y : Nat
  m : Nat
  d : Nat
deriving DecidableEq

/-- Order-preserving numeric encoding of a date (valid since `m ≤ 12`, `d ≤ 31`). -/
def dateVal (dt : Date) : Nat := dt.y * 10000 + dt.m * 100 + dt.d

/-- Split a character list on the dash separator, as in parsing `YYYY-MM-DD`. -/
def splitDash : List Char → List (List Char)
  | [] => [[]]
  | '-' :: rest => [] :: splitDash rest
  | c :: rest =>
    match splitDash rest with
    | [] => [[c]]
    | h :: t => (c :: h) :: t

/-- Numeric value of a decimal digit character, `none` for non-digits. -/
def digitVal (c : Char) : Option Nat :=
  if '0' ≤ c ∧ c ≤ '9' then some (c.toNat - '0'.toNat) else none

/-- Parse a nonempty list of decimal digits into a natural number. -/
def digitsToNat : List Char → Option Nat
  | [] => none
  | cs => cs.foldl (fun a c =>
      match a, digitVal c with
      | some n, some dv => some (n * 10 + dv)
      | _, _ => none) (some 0)

/-- Gregorian leap-year rule, as used by `pd.to_datetime`'s calendar check. -/
def isLeapYear (y : Nat) : Bool :=
  (y % 4 == 0 && y % 100 != 0) || y % 400 == 0

/-- Number of days of month `m` in year `y`. -/
def daysInMonth (y m : Nat) : Nat :=
  if m = 2 then (if isLeapYear y then 29 else 28)
  else if m = 4 ∨ m = 6 ∨ m = 9 ∨ m = 11 then 30
  else 31

/-- `pd.to_datetime` on a `YYYY-MM-DD` string: split on dashes, read the three
numeric components, and check they form a real calendar date (month in 1..12,
day within the month's length, leap years included) — `pd.to_datetime` raises
on calendar-invalid dates such as `2025-02-31`.  Any malformed input yields
`none` (the exception that aborts the script). -/
def parseDate (s : String) : Option Date :=
  match splitDash s.data with
  | [ys, ms, ds] =>
    match digitsToNat ys, digitsToNat ms, digitsToNat ds with
    | some yv, some mv, some dv =>
      if 1 ≤ mv ∧ mv ≤ 12 ∧ 1 ≤ dv ∧ dv ≤ daysInMonth yv mv then
        some ⟨yv, mv, dv⟩
      else none
    | _, _, _ => none
  | _ => none

/-- The `status_colors` dictionary literal of `chart_script.py`. -/
def status_colors : List (String × String) :=
  [ ("Implementado", "#2E8B57"),
    ("Em Andamento", "#1FB8CD"),
    ("Previsto", "#D2BA4C") ]

/-- `df['status'].map(status_colors)` applied to one status value: dictionary
lookup returning `none` (pandas `NaN`) when the key is absent. -/
def resolveColor (s : String) : Option String := status_colors.lookup s

/-- Line 31 of `chart_script.py`: `df['color'] = df['status'].map(status_colors)`.
The color column, with `none` standing for a pandas `NaN`.  This step itself
never raises — an unmapped status silently becomes a missing value here. -/
def colorColumn (phases : List PhaseRecord) : List (Option String) :=
  phases.map (fun p => resolveColor p.status)

/-- The hover template attached to each trace: the literal HTML prefix followed
by the phase's modal, status and period label embedded verbatim, exactly as the
f-string concatenation in `chart_script.py` builds it. -/
def hoverText (p : PhaseRecord) : String :=
  "<b>%\x7by\x7d</b><br>" ++ "Modal: " ++ p.modal ++ "<br>" ++ "Status: " ++ p.status ++
    "<br>" ++ "Período: " ++ p.periodo ++ "<br>" ++ "<extra></extra>"

/-- One successfully constructed `go.Scatter` trace of `chart_script.py`.
Construction validates the colors, so a trace always carries real color
strings. -/
structure Trace where
  x1 : Date
  x2 : Date
  y1 : String
  y2 : String
  lineColor : String
  markerColor : String
  name : String
  legendgroup : String
  showlegend : Bool
  hovertemplate : String
deriving DecidableEq

/-- Construct the `go.Scatter` trace for one row.  `seen` is the list of names
of the traces already in the figure (`[trace.name for trace in fig.data]`);
the trace shows in the legend exactly when its status is not among them.
The constructor validates its properties: when the row's color is the `NaN`
produced by an unmapped status, `scatter.line.color`'s plain color validator
(it has no colorscale path) rejects the numeric value and `go.Scatter` raises
a `ValueError`, so no trace is produced (`none`). -/
def mkTrace (seen : List String) (p : PhaseRecord) (di df : Date) : Option Trace :=
  match resolveColor p.status with
  | some c =>
    some
      { x1 := di
        x2 := df
        y1 := p.nome
        y2 := p.nome
        lineColor := c
        markerColor := c
        name := p.status
        legendgroup := p.status
        showlegend := decide (p.status ∉ seen)
        hovertemplate := hoverText p }
  | none => none

/-- The `for i, row in df.iterrows()` loop: each iteration constructs one
trace and appends it; a `ValueError` raised inside `go.Scatter` (missing
color) aborts the whole loop with no figure. -/
def buildTracesAux : List Trace → List (PhaseRecord × Date × Date) → Option (List Trace)
  | acc, [] => some acc
  | acc, (p, di, df) :: rest =>
    match mkTrace (acc.map (fun t => t.name)) p di df with
    | some t => buildTracesAux (acc ++ [t]) rest
    | none => none

/-- All traces of the figure, built from the rows of the phase table; `none`
when some trace construction raises. -/
def buildTraces (rows : List (PhaseRecord × Date × Date)) : Option (List Trace) :=
  buildTracesAux [] rows

/-- The final plotly figure: traces plus the layout set by `update_layout` and
`update_xaxes` in `chart_script.py`. -/
structure Figure where
  traces : List Trace
  title : String
  xaxisTitle : String
  yaxisTitle : String
  categoryOrder : String
  categoryArray : List String
  xaxisRange : String × String
deriving DecidableEq

/-- Parse one date column of the phase table; any malformed entry raises. -/
def parseDates (f : PhaseRecord → String) : List PhaseRecord → Option (List Date)
  | [] => some []
  | p :: rest =>
    match parseDate (f p), parseDates f rest with
    | some dt, some ds => some (dt :: ds)
    | _, _ => none

/-- The whole `chart_script.py` pipeline as a function of the phase list:
convert the two date columns (aborting on a parse failure, as `pd.to_datetime`
raises), build the traces (aborting if `go.Scatter` raises on a missing
color), and assemble the layout.  The x-axis range is the hardcoded
`['2024-09-15', '2026-01-15']` of `fig.update_xaxes`, and the y-axis category
array is the `nome` column in input order. -/
def buildChart (phases : List PhaseRecord) : Option Figure :=
  match parseDates (fun p => p.inicio) phases, parseDates (fun p => p.fim) phases with
  | some inicios, some fims =>
    match buildTraces (phases.zip (inicios.zip fims)) with
    | some traces =>
      some
        { traces := traces
          title := "Timeline DUIMP Out 2024 - Dez 2025"
          xaxisTitle := "Data"
          yaxisTitle := "Fases"
          categoryOrder := "array"
          categoryArray := phases.map (fun p => p.nome)
          xaxisRange := ("2024-09-15", "2026-01-15") }
    | none => none
  | _, _ => none

/-- A column-oriented table: ordered column names and rows in input order. -/
structure Table where
  header : List String
  rows : List (List String)
deriving DecidableEq

/-- The declared field order of `PhaseRecord` (the dict-key order of the
`fases` literal, which `pd.DataFrame` keeps as the column order). -/
def phaseFields : List String := ["nome", "periodo", "modal", "status", "inicio", "fim"]

/-- One record as a table row, fields in declaration order. -/
def phaseToRow (p : PhaseRecord) : List String :=
  [p.nome, p.periodo, p.modal, p.status, p.inicio, p.fim]

/-- `pd.DataFrame(records)`: rows in input order, columns in field order. -/
def buildTable (rs : List PhaseRecord) : Table :=
  { header := phaseFields, rows := rs.map phaseToRow }

/-! ### CSV serialization (`to_csv(..., index=False, encoding='utf-8')`)

`to_csv` delegates to the standard csv writer with minimal quoting: a field is
quoted exactly when it contains the delimiter, the quote character, or a line
break, and an embedded quote character is doubled.  Rows are terminated by a
newline.  We model text at the character level (full Unicode: a `Char` is a
scalar value, so no character is ever lost or replaced). -/

/-- Minimal quoting: a field needs quotes iff it contains a comma, a quote
character, or a line break. -/
def needsQuote (f : List Char) : Bool :=
  f.any (fun c => c = ',' || c = '"' || c = '\n' || c = '\r')

/-- Double every embedded quote character. -/
def escapeQuotes : List Char → List Char
  | [] => []
  | c :: rest => if c = '"' then '"' :: '"' :: escapeQuotes rest else c :: escapeQuotes rest

/-- Serialize one field with minimal quoting. -/
def writeField (f : List Char) : List Char :=
  if needsQuote f then '"' :: (escapeQuotes f ++ ['"']) else f

/-- Serialize one row: fields joined by commas. -/
def writeRow : List (List Char) → List Char
  | [] => []
  | [f] => writeField f
  | f :: g :: rest => writeField f ++ ',' :: writeRow (g :: rest)

/-- Serialize a sequence of rows, each terminated by a newline. -/
def writeRows : List (List (List Char)) → List Char
  | [] => []
  | r :: rest => writeRow r ++ '\n' :: writeRows rest

/-- `df.to_csv(path, index=False)`: one header row with the column names in
declared order, then one line per data row; no index column is written. -/
def exportCsv (t : Table) : List Char :=
  writeRows ((t.header :: t.rows).map (fun r => r.map (fun s => s.data)))

/-- Scanner mode of the delimited-text reader. -/
inductive CsvMode
  | normal
  | quoted
  | postQuote
deriving DecidableEq

/-- State of the delimited-text reader: completed rows, fields of the current
row, characters of the current field, and the scanner mode. -/
structure CsvState where
  rows : List (List (List Char))
  cur : List (List Char)
  field : List Char
  mode : CsvMode
deriving DecidableEq

/-- One step of the standard delimited-text reader (RFC 4180 quoting rules):
outside quotes a comma ends the field and a newline ends the record; a quote
character opening a field starts a quoted field, inside which a doubled quote
denotes a literal quote character and a single one closes the field. -/
def csvStep (st : CsvState) (c : Char) : CsvState :=
  match st.mode with
  | .normal =>
    if c = ',' then { st with cur := st.cur ++ [st.field], field := [] }
    else if c = '\n' then
      { rows := st.rows ++ [st.cur ++ [st.field]], cur := [], field := [], mode := .normal }
    else if c = '"' && decide (st.field = []) then { st with mode := .quoted }
    else { st with field := st.field ++ [c] }
  | .quoted =>
    if c = '"' then { st with mode := .postQuote }
    else { st with field := st.field ++ [c] }
  | .postQuote =>
    if c = '"' then { st with field := st.field ++ ['"'], mode := .quoted }
    else if c = ',' then { st with cur := st.cur ++ [st.field], field := [], mode := .normal }
    else if c = '\n' then
      { rows := st.rows ++ [st.cur ++ [st.field]], cur := [], field := [], mode := .normal }
    else { st with field := st.field ++ [c], mode := .normal }

/-- Run the delimited-text reader over a whole character stream.  A final
record not terminated by a newline is flushed at end of input; input ending
right after a record terminator (or empty input) adds nothing. -/
def parseCsv (input : List Char) : List (List (List Char)) :=
  let st := input.foldl csvStep ⟨[], [], [], .normal⟩
  match st.mode, st.cur, st.field with
  | .normal, [], [] => st.rows
  | _, cur, f => st.rows ++ [cur ++ [f]]

/-! ### Behaviour of one reader step -/

lemma csvStep_normal_comma (rows : List (List (List Char))) (cur : List (List Char))
    (fld : List Char) :
    csvStep ⟨rows, cur, fld, .normal⟩ ',' = ⟨rows, cur ++ [fld], [], .normal⟩ := rfl

lemma csvStep_normal_newline (rows : List (List (List Char))) (cur : List (List Char))
    (fld : List Char) :
    csvStep ⟨rows, cur, fld, .normal⟩ '\n' = ⟨rows ++ [cur ++ [fld]], [], [], .normal⟩ := rfl

lemma csvStep_normal_quoteStart (rows : List (List (List Char))) (cur : List (List Char)) :
    csvStep ⟨rows, cur, [], .normal⟩ '"' = ⟨rows, cur, [], .quoted⟩ := rfl

lemma csvStep_normal_other (rows : List (List (List Char))) (cur : List (List Char))
    (fld : List Char) (c : Char) (h1 : c ≠ ',') (h2 : c ≠ '\n') (h3 : c ≠ '"') :
    csvStep ⟨rows, cur, fld, .normal⟩ c = ⟨rows, cur, fld ++ [c], .normal⟩ := by
  simp [csvStep, h1, h2, h3]

lemma csvStep_quoted_quote (rows : List (List (List Char))) (cur : List (List Char))
    (fld : List Char) :
    csvStep ⟨rows, cur, fld, .quoted⟩ '"' = ⟨rows, cur, fld, .postQuote⟩ := rfl

lemma csvStep_quoted_other (rows : List (List (List Char))) (cur : List (List Char))
    (fld : List Char) (c : Char) (h : c ≠ '"') :
    csvStep ⟨rows, cur, fld, .quoted⟩ c = ⟨rows, cur, fld ++ [c], .quoted⟩ := by
  simp [csvStep, h]

lemma csvStep_postQuote_quote (rows : List (List (List Char))) (cur : List (List Char))
    (fld : List Char) :
    csvStep ⟨rows, cur, fld, .postQuote⟩ '"' = ⟨rows, cur, fld ++ ['"'], .quoted⟩ := rfl

lemma csvStep_postQuote_comma (rows : List (List (List Char))) (cur : List (List Char))
    (fld : List Char) :
    csvStep ⟨rows, cur, fld, .postQuote⟩ ',' = ⟨rows, cur ++ [fld], [], .normal⟩ := rfl

lemma csvStep_postQuote_newline (rows : List (List (List Char))) (cur : List (List Char))
    (fld : List Char) :
    csvStep ⟨rows, cur, fld, .postQuote⟩ '\n' = ⟨rows ++ [cur ++ [fld]], [], [], .normal⟩ := rfl

/-! ### The reader inverts the writer -/

/-- Scanning an unquoted field in normal mode appends its characters. -/
lemma foldl_csvStep_unquoted (f : List Char) (hq : needsQuote f = false) :
    ∀ (rows : List (List (List Char))) (cur : List (List Char)) (fld : List Char),
    List.foldl csvStep ⟨rows, cur, fld, .normal⟩ f = ⟨rows, cur, fld ++ f, .normal⟩ := by
  induction f with
  | nil => intro rows cur fld; simp
  | cons c rest ih =>
    intro rows cur fld
    simp only [needsQuote, List.any_cons, Bool.or_eq_false_iff,
      decide_eq_false_iff_not] at hq
    obtain ⟨⟨⟨⟨hc, hq'⟩, hn⟩, hr⟩, hrest⟩ := hq
    rw [List.foldl_cons, csvStep_normal_other rows cur fld c hc hn hq',
      ih hrest rows cur (fld ++ [c]), List.append_assoc]
    rfl

/-- Scanning the quote-doubled content of a quoted field appends the original
characters and stays in quoted mode. -/
lemma foldl_csvStep_quoted (f : List Char) :
    ∀ (rows : List (List (List Char))) (cur : List (List Char)) (fld : List Char),
    List.foldl csvStep ⟨rows, cur, fld, .quoted⟩ (escapeQuotes f) =
      ⟨rows, cur, fld ++ f, .quoted⟩ := by
  induction f with
  | nil => intro rows cur fld; simp [escapeQuotes]
  | cons c rest ih =>
    intro rows cur fld
    by_cases hc : c = '"'
    · subst hc
      rw [show escapeQuotes ('"' :: rest) = '"' :: '"' :: escapeQuotes rest from rfl]
      rw [List.foldl_cons, csvStep_quoted_quote, List.foldl_cons, csvStep_postQuote_quote,
        ih rows cur (fld ++ ['"']), List.append_assoc]
      rfl
    · rw [show escapeQuotes (c :: rest) = c :: escapeQuotes rest by simp [escapeQuotes, hc]]
      rw [List.foldl_cons, csvStep_quoted_other rows cur fld c hc,
        ih rows cur (fld ++ [c]), List.append_assoc]
      rfl

/-- After scanning one serialized field from the start of a field, the reader
holds exactly the original field characters, in normal or post-quote mode. -/
lemma foldl_csvStep_writeField (f : List Char) (rows : List (List (List Char)))
    (cur : List (List Char)) :
    List.foldl csvStep ⟨rows, cur, [], .normal⟩ (writeField f) = ⟨rows, cur, f, .normal⟩ ∨
    List.foldl csvStep ⟨rows, cur, [], .normal⟩ (writeField f) = ⟨rows, cur, f, .postQuote⟩ := by
  by_cases hq : needsQuote f
  · right
    rw [show writeField f = '"' :: (escapeQuotes f ++ ['"']) by simp [writeField, hq]]
    rw [List.foldl_cons, csvStep_normal_quoteStart, List.foldl_append,
      foldl_csvStep_quoted f rows cur []]
    simp [csvStep_quoted_quote]
  · left
    rw [show writeField f = f by simp [writeField, hq]]
    exact foldl_csvStep_unquoted f (by simpa using hq) rows cur []

/-- Scanning one serialized row followed by its newline terminator emits
exactly the original row. -/
lemma foldl_csvStep_writeRow (fs : List (List Char)) (hne : fs ≠ []) :
    ∀ (rows : List (List (List Char))) (cur : List (List Char)),
    List.foldl csvStep ⟨rows, cur, [], .normal⟩ (writeRow fs ++ ['\n']) =
      ⟨rows ++ [cur ++ fs], [], [], .normal⟩ := by
  induction fs with
  | nil => exact absurd rfl hne
  | cons f rest ih =>
    intro rows cur
    cases rest with
    | nil =>
      rw [show writeRow [f] = writeField f from rfl, List.foldl_append]
      rcases foldl_csvStep_writeField f rows cur with h | h <;>
        rw [h] <;> simp [csvStep_normal_newline, csvStep_postQuote_newline]
    | cons g rest' =>
      rw [show writeRow (f :: g :: rest') ++ ['\n'] =
            writeField f ++ (',' :: (writeRow (g :: rest') ++ ['\n'])) by
          rw [show writeRow (f :: g :: rest') = writeField f ++ ',' :: writeRow (g :: rest')
              from rfl, List.append_assoc]
          rfl]
      rw [List.foldl_append]
      rcases foldl_csvStep_writeField f rows cur with h | h
      · rw [h, List.foldl_cons, csvStep_normal_comma,
          ih (by simp) rows (cur ++ [f]), List.append_assoc]
        rfl
      · rw [h, List.foldl_cons, csvStep_postQuote_comma,
          ih (by simp) rows (cur ++ [f]), List.append_assoc]
        rfl

/-- Scanning a serialized sequence of nonempty rows emits exactly those rows
and returns to a fresh-record state. -/
lemma foldl_csvStep_writeRows (rs : List (List (List Char))) (hne : ∀ r ∈ rs, r ≠ []) :
    ∀ (rows : List (List (List Char))),
    List.foldl csvStep ⟨rows, [], [], .normal⟩ (writeRows rs) =
      ⟨rows ++ rs, [], [], .normal⟩ := by
  induction rs with
  | nil => intro rows; simp [writeRows]
  | cons r rest ih =>
    intro rows
    rw [show writeRows (r :: rest) = writeRow r ++ '\n' :: writeRows rest from rfl]
    rw [show writeRow r ++ '\n' :: writeRows rest = (writeRow r ++ ['\n']) ++ writeRows rest
        by simp]
    rw [List.foldl_append, foldl_csvStep_writeRow r (hne r (by simp)) rows [],
      ih (fun x hx => hne x (by simp [hx])) (rows ++ [[] ++ r])]
    simp

/-- Round trip at the character level: re-parsing serialized nonempty rows
with the standard delimited-text reader yields exactly the original rows. -/
lemma parseCsv_writeRows (rs : List (List (List Char))) (hne : ∀ r ∈ rs, r ≠ []) :
    parseCsv (writeRows rs) = rs := by
  rw [parseCsv, foldl_csvStep_writeRows rs hne []]
  rfl

/-! ### First-occurrence de-duplication (spec side)

`firstOccurrences` is the de-duplication the spec describes for the legend:
keep each status the first time it appears, in input order.  It is compared
below with what the trace-building loop of `chart_script.py` actually shows. -/

/-- Spec-side first-occurrence-wins de-duplication, with `seen` the values
already kept earlier. -/
def firstOccAux (seen : List String) : List String → List String
  | [] => []
  | s :: rest =>
    if s ∈ seen then firstOccAux seen rest else s :: firstOccAux (seen ++ [s]) rest

/-- Spec-side: the distinct values of a list, first occurrence first. -/
def firstOccurrences (l : List String) : List String := firstOccAux [] l

lemma firstOccAux_congr (l : List String) :
    ∀ s₁ s₂ : List String, (∀ x, x ∈ s₁ ↔ x ∈ s₂) → firstOccAux s₁ l = firstOccAux s₂ l := by
  induction l with
  | nil => intro s₁ s₂ _; rfl
  | cons a rest ih =>
    intro s₁ s₂ hiff
    by_cases ha : a ∈ s₁
    · rw [firstOccAux, firstOccAux, if_pos ha, if_pos ((hiff a).1 ha)]
      exact ih s₁ s₂ hiff
    · rw [firstOccAux, firstOccAux, if_neg ha, if_neg (fun hc => ha ((hiff a).2 hc))]
      refine congrArg (a :: ·) (ih _ _ fun x => ?_)
      simp only [List.mem_append, List.mem_singleton]
      exact or_congr (hiff x) Iff.rfl

lemma mem_firstOccAux (l : List String) :
    ∀ (seen : List String) (s : String),
    s ∈ firstOccAux seen l ↔ (s ∈ l ∧ s ∉ seen) := by
  induction l with
  | nil => intro seen s; simp [firstOccAux]
  | cons a rest ih =>
    intro seen s
    by_cases ha : a ∈ seen
    · rw [firstOccAux, if_pos ha, ih seen s]
      constructor
      · exact fun ⟨h1, h2⟩ => ⟨List.mem_cons_of_mem a h1, h2⟩
      · rintro ⟨h1, h2⟩
        rcases List.mem_cons.1 h1 with h | h
        · exact absurd (h ▸ ha) h2
        · exact ⟨h, h2⟩
    · rw [firstOccAux, if_neg ha]
      rw [List.mem_cons, ih (seen ++ [a]) s]
      simp only [List.mem_append, List.mem_singleton, List.mem_cons, List.not_mem_nil]
      by_cases hsa : s = a
      · subst hsa
        simp [ha]
      · simp [hsa]

lemma nodup_firstOccAux (l : List String) :
    ∀ seen : List String, (firstOccAux seen l).Nodup := by
  induction l with
  | nil => intro seen; simp [firstOccAux]
  | cons a rest ih =>
    intro seen
    by_cases ha : a ∈ seen
    · rw [firstOccAux, if_pos ha]; exact ih seen
    · rw [firstOccAux, if_neg ha]
      refine List.nodup_cons.2 ⟨fun hc => ?_, ih (seen ++ [a])⟩
      exact ((mem_firstOccAux rest (seen ++ [a]) a).1 hc).2 (by simp)

/-! ### Behaviour of the trace constructor and the trace-building loop -/

/-- Trace construction succeeds exactly when the row's status has a color. -/
lemma mkTrace_isSome (seen : List String) (p : PhaseRecord) (di df : Date) :
    (mkTrace seen p di df).isSome = (resolveColor p.status).isSome := by
  cases h : resolveColor p.status <;> simp [mkTrace, h]

/-- Inversion for a successful trace construction: the fields the loop and the
layout depend on. -/
lemma mkTrace_eq_some {seen : List String} {p : PhaseRecord} {di df : Date} {t : Trace}
    (h : mkTrace seen p di df = some t) :
    t.name = p.status ∧ t.showlegend = decide (p.status ∉ seen) ∧
    t.hovertemplate = hoverText p := by
  cases hc : resolveColor p.status with
  | none =>
    rw [mkTrace, hc] at h
    exact absurd h (by simp)
  | some c =>
    rw [mkTrace, hc] at h
    simp only [Option.some.injEq] at h
    subst h
    exact ⟨rfl, rfl, rfl⟩

/-- The loop only appends: a successful final trace list extends the
accumulator. -/
lemma buildTracesAux_append (rows : List (PhaseRecord × Date × Date)) :
    ∀ (acc ts : List Trace), buildTracesAux acc rows = some ts →
      ∃ ts', ts = acc ++ ts' := by
  induction rows with
  | nil =>
    intro acc ts h
    rw [buildTracesAux] at h
    simp only [Option.some.injEq] at h
    exact ⟨[], by simp [h.symm]⟩
  | cons x rest ih =>
    intro acc ts h
    obtain ⟨p, di, df⟩ := x
    rw [buildTracesAux] at h
    cases hm : mkTrace (acc.map (fun t => t.name)) p di df with
    | none => rw [hm] at h; exact absurd h (by simp)
    | some t =>
      rw [hm] at h
      obtain ⟨ts', hts'⟩ := ih (acc ++ [t]) ts h
      exact ⟨[t] ++ ts', by rw [hts', List.append_assoc]⟩

/-- On success, one trace is added per table row. -/
lemma buildTracesAux_length (rows : List (PhaseRecord × Date × Date)) :
    ∀ (acc ts : List Trace), buildTracesAux acc rows = some ts →
      ts.length = acc.length + rows.length := by
  induction rows with
  | nil =>
    intro acc ts h
    rw [buildTracesAux] at h
    simp only [Option.some.injEq] at h
    simp [h.symm]
  | cons x rest ih =>
    intro acc ts h
    obtain ⟨p, di, df⟩ := x
    rw [buildTracesAux] at h
    cases hm : mkTrace (acc.map (fun t => t.name)) p di df with
    | none => rw [hm] at h; exact absurd h (by simp)
    | some t =>
      rw [hm] at h
      rw [ih (acc ++ [t]) ts h]
      simp [Nat.add_assoc, Nat.add_comm 1]

/-- On success, the trace names are exactly the statuses of the rows, in row
order. -/
lemma buildTracesAux_names (rows : List (PhaseRecord × Date × Date)) :
    ∀ (acc ts : List Trace), buildTracesAux acc rows = some ts →
      ts.map (fun t => t.name) =
        acc.map (fun t => t.name) ++ rows.map (fun x => x.1.status) := by
  induction rows with
  | nil =>
    intro acc ts h
    rw [buildTracesAux] at h
    simp only [Option.some.injEq] at h
    simp [h.symm]
  | cons x rest ih =>
    intro acc ts h
    obtain ⟨p, di, df⟩ := x
    rw [buildTracesAux] at h
    cases hm : mkTrace (acc.map (fun t => t.name)) p di df with
    | none => rw [hm] at h; exact absurd h (by simp)
    | some t =>
      rw [hm] at h
      rw [ih (acc ++ [t]) ts h, List.map_append]
      simp [(mkTrace_eq_some hm).1]

/-- On success, the hover strings are exactly the hover texts of the rows, in
row order (they do not depend on the legend bookkeeping). -/
lemma buildTracesAux_hover (rows : List (PhaseRecord × Date × Date)) :
    ∀ (acc ts : List Trace), buildTracesAux acc rows = some ts →
      ts.map (fun t => t.hovertemplate) =
        acc.map (fun t => t.hovertemplate) ++ rows.map (fun x => hoverText x.1) := by
  induction rows with
  | nil =>
    intro acc ts h
    rw [buildTracesAux] at h
    simp only [Option.some.injEq] at h
    simp [h.symm]
  | cons x rest ih =>
    intro acc ts h
    obtain ⟨p, di, df⟩ := x
    rw [buildTracesAux] at h
    cases hm : mkTrace (acc.map (fun t => t.name)) p di df with
    | none => rw [hm] at h; exact absurd h (by simp)
    | some t =>
      rw [hm] at h
      rw [ih (acc ++ [t]) ts h, List.map_append]
      simp [(mkTrace_eq_some hm).2.2]

/-- Full characterization of the successful trace at index `i`: it is built
from row `i`, with the legend bookkeeping having seen the statuses of the
earlier rows. -/
lemma buildTracesAux_get? (rows : List (PhaseRecord × Date × Date)) :
    ∀ (acc ts : List Trace) (i : Nat), buildTracesAux acc rows = some ts →
      ts.get? (acc.length + i) =
        (rows.get? i).bind (fun x =>
          mkTrace (acc.map (fun t => t.name) ++ (rows.take i).map (fun y => y.1.status))
            x.1 x.2.1 x.2.2) := by
  induction rows with
  | nil =>
    intro acc ts i h
    rw [buildTracesAux] at h
    simp only [Option.some.injEq] at h
    subst h
    simp [List.get?_eq_none.2 (Nat.le_add_right acc.length i)]
  | cons x rest ih =>
    intro acc ts i h
    obtain ⟨p, di, df⟩ := x
    rw [buildTracesAux] at h
    cases hm : mkTrace (acc.map (fun t => t.name)) p di df with
    | none => rw [hm] at h; exact absurd h (by simp)
    | some t =>
      rw [hm] at h
      cases i with
      | zero =>
        obtain ⟨ts', hts'⟩ := buildTracesAux_append rest (acc ++ [t]) ts h
        subst hts'
        rw [Nat.add_zero, List.get?_append (by simp [Nat.lt_succ_self]),
          List.get?_concat_length]
        simp [hm]
      | succ i' =>
        have harith : acc.length + (i' + 1) = (acc ++ [t]).length + i' := by
          simp [Nat.add_comm, Nat.add_assoc, Nat.add_left_comm]
        rw [harith, ih (acc ++ [t]) ts i' h]
        rw [show (acc ++ [t]).map (fun t => t.name) =
            acc.map (fun t => t.name) ++ [p.status] by
          simp [(mkTrace_eq_some hm).1]]
        simp

/-- On success, the legend (names of the traces with `showlegend` true)
consists of the row statuses de-duplicated first-occurrence-wins, given that
the names already in the figure are the accumulator's names. -/
lemma buildTracesAux_legend (rows : List (PhaseRecord × Date × Date)) :
    ∀ (acc ts : List Trace), buildTracesAux acc rows = some ts →
      (ts.filter (fun t => t.showlegend)).map (fun t => t.name) =
        ((acc.filter (fun t => t.showlegend)).map (fun t => t.name)) ++
          firstOccAux (acc.map (fun t => t.name)) (rows.map (fun x => x.1.status)) := by
  induction rows with
  | nil =>
    intro acc ts h
    rw [buildTracesAux] at h
    simp only [Option.some.injEq] at h
    simp [h.symm, firstOccAux]
  | cons x rest ih =>
    intro acc ts h
    obtain ⟨p, di, df⟩ := x
    rw [buildTracesAux] at h
    cases hm : mkTrace (acc.map (fun t => t.name)) p di df with
    | none => rw [hm] at h; exact absurd h (by simp)
    | some t =>
      rw [hm] at h
      rw [ih (acc ++ [t]) ts h]
      obtain ⟨hname, hshow, _⟩ := mkTrace_eq_some hm
      by_cases hmem : p.status ∈ acc.map (fun t => t.name)
      · rw [List.map_cons, firstOccAux, if_pos hmem]
        have hshowf : t.showlegend = false := by
          rw [hshow]
          simp [hmem]
        rw [List.filter_append, List.map_append]
        rw [show List.filter (fun t => t.showlegend) [t] = [] by simp [hshowf]]
        rw [List.map_nil, List.append_nil]
        congr 1
        rw [show (acc ++ [t]).map (fun t => t.name) =
            acc.map (fun t => t.name) ++ [p.status] by simp [hname]]
        exact firstOccAux_congr _ _ _
          (fun x => ⟨fun hx => (List.mem_append.1 hx).elim id
              (fun hy => by rw [List.mem_singleton.1 hy]; exact hmem),
            fun hx => List.mem_append_left _ hx⟩)
      · rw [List.map_cons, firstOccAux, if_neg hmem]
        have hshowt : t.showlegend = true := by
          rw [hshow]
          simp [hmem]
        rw [List.filter_append, List.map_append]
        rw [show List.filter (fun t => t.showlegend) [t] = [t] by simp [hshowt]]
        rw [show (acc ++ [t]).map (fun t => t.name) =
            acc.map (fun t => t.name) ++ [p.status] by simp [hname]]
        simp [hname, List.append_assoc]

/-- A row whose status has no color aborts the loop: no trace list exists. -/
lemma buildTracesAux_unmapped (rows : List (PhaseRecord × Date × Date)) :
    ∀ acc : List Trace, (∃ x ∈ rows, resolveColor x.1.status = none) →
      buildTracesAux acc rows = none := by
  induction rows with
  | nil =>
    rintro acc ⟨x, hx, _⟩
    exact absurd hx (List.not_mem_nil x)
  | cons x' rest ih =>
    rintro acc ⟨x, hx, hcol⟩
    obtain ⟨p, di, df⟩ := x'
    rw [buildTracesAux]
    rcases List.mem_cons.1 hx with rfl | hx'
    · rw [show mkTrace (acc.map (fun t => t.name)) p di df = none by
        rw [mkTrace, hcol]]
    · cases hm : mkTrace (acc.map (fun t => t.name)) p di df with
      | none => rfl
      | some t => exact ih (acc ++ [t]) ⟨x, hx', hcol⟩

/-- The loop succeeds whenever every row's status has a color. -/
lemma buildTracesAux_isSome (rows : List (PhaseRecord × Date × Date)) :
    ∀ acc : List Trace, (∀ x ∈ rows, (resolveColor x.1.status).isSome) →
      (buildTracesAux acc rows).isSome := by
  induction rows with
  | nil => intro acc _; simp [buildTracesAux]
  | cons x rest ih =>
    intro acc h
    obtain ⟨p, di, df⟩ := x
    rw [buildTracesAux]
    have hp : (resolveColor p.status).isSome := h (p, di, df) (by simp)
    cases hm : mkTrace (acc.map (fun t => t.name)) p di df with
    | none =>
      rw [← mkTrace_isSome (acc.map (fun t => t.name)) p di df, hm] at hp
      exact absurd hp (by simp)
    | some t => exact ih (acc ++ [t]) (fun y hy => h y (by simp [hy]))

/-! ### Behaviour of the whole chart pipeline -/

/-- Successful column conversion preserves the number of rows. -/
lemma parseDates_length (f : PhaseRecord → String) :
    ∀ (ps : List PhaseRecord) (ds : List Date), parseDates f ps = some ds →
      ds.length = ps.length := by
  intro ps
  induction ps with
  | nil =>
    intro ds h
    rw [parseDates] at h
    simp only [Option.some.injEq] at h
    subst h
    rfl
  | cons p rest ih =>
    intro ds h
    rw [parseDates] at h
    cases hp : parseDate (f p) with
    | none => rw [hp] at h; exact absurd h (by simp)
    | some dt =>
      cases hr : parseDates f rest with
      | none => rw [hp, hr] at h; exact absurd h (by simp)
      | some ds' =>
        rw [hp, hr] at h
        simp only [Option.some.injEq] at h
        subst h
        simp [ih ds' hr]

/-- Inversion for a successful run of the chart pipeline: both date columns
converted, every trace constructed, and the figure's fields are exactly the
ones the script assembles. -/
lemma buildChart_elim (phases : List PhaseRecord) (fig : Figure)
    (h : buildChart phases = some fig) :
    ∃ inicios fims,
      parseDates (fun p => p.inicio) phases = some inicios ∧
      parseDates (fun p => p.fim) phases = some fims ∧
      buildTraces (phases.zip (inicios.zip fims)) = some fig.traces ∧
      fig.categoryOrder = "array" ∧
      fig.categoryArray = phases.map (fun p => p.nome) ∧
      fig.xaxisRange = ("2024-09-15", "2026-01-15") := by
  cases hi : parseDates (fun p => p.inicio) phases with
  | none =>
    rw [buildChart, hi] at h
    exact absurd h (by simp)
  | some inicios =>
    cases hf : parseDates (fun p => p.fim) phases with
    | none =>
      rw [buildChart, hi, hf] at h
      exact absurd h (by simp)
    | some fims =>
      simp only [buildChart, hi, hf] at h
      cases ht : buildTraces (phases.zip (inicios.zip fims)) with
      | none => rw [ht] at h; exact absurd h (by simp)
      | some traces =>
        rw [ht] at h
        simp only [Option.some.injEq] at h
        subst h
        exact ⟨inicios, fims, rfl, rfl, ht, rfl, rfl, rfl⟩

/-- Statuses of the zipped table rows are the statuses of the phases. -/
lemma zip_statuses (phases : List PhaseRecord) (ds : List (Date × Date))
    (h : phases.length ≤ ds.length) :
    (phases.zip ds).map (fun x => x.1.status) = phases.map (fun p => p.status) := by
  rw [show (fun x : PhaseRecord × Date × Date => x.1.status) =
        (fun p : PhaseRecord => p.status) ∘ Prod.fst from rfl, ← List.map_map,
    List.map_fst_zip _ _ h]

/-- Phases of the zipped table rows are the phases themselves. -/
lemma zip_phases (phases : List PhaseRecord) (ds : List (Date × Date))
    (h : phases.length ≤ ds.length) :
    (phases.zip ds).map Prod.fst = phases :=
  List.map_fst_zip _ _ h

/-- Both date columns convert whenever every phase's dates parse. -/
lemma parseDates_isSome (f : PhaseRecord → String) :
    ∀ ps : List PhaseRecord, (∀ p ∈ ps, (parseDate (f p)).isSome) →
      (parseDates f ps).isSome := by
  intro ps
  induction ps with
  | nil => intro _; simp [parseDates]
  | cons p rest ih =>
    intro h
    rw [parseDates]
    have hp := h p (by simp)
    have hr := ih (fun q hq => h q (by simp [hq]))
    cases hpd : parseDate (f p) with
    | none => rw [hpd] at hp; exact absurd hp (by simp)
    | some dt =>
      cases hrd : parseDates f rest with
      | none => rw [hrd] at hr; exact absurd hr (by simp)
      | some ds => simp

/-! ### Concrete records used in counterexamples and witnesses -/

/-- A phase whose status is outside the three-entry color dictionary. -/
def faseCancelada : PhaseRecord :=
  ⟨"Fase X", "Out-Dez 2026", "Modal Fluvial", "Cancelado", "2026-10-01", "2026-12-31"⟩

/-- A phase whose start date is after its end date. -/
def faseInvertida : PhaseRecord :=
  ⟨"Fase Y", "Dez-Jan", "Modal Teste", "Previsto", "2025-12-31", "2025-01-01"⟩

/-- The two-phase input named by the spec's legend de-duplication property. -/
def demoPhases : List PhaseRecord :=
  [ ⟨"Fase 1", "Out-Dez 2024", "Modal Marítimo", "Implementado", "2024-10-01", "2024-12-31"⟩,
    ⟨"Fase 2A", "Jan-Mar 2025", "Modal Aéreo", "Implementado", "2025-01-01", "2025-03-31"⟩ ]

/-- The date-range bounds hardcoded by `fig.update_xaxes`. -/
def dateInBounds (d : Date) : Prop :=
  dateVal ⟨2024, 9, 15⟩ ≤ dateVal d ∧ dateVal d ≤ dateVal ⟨2026, 1, 15⟩

instance (d : Date) : Decidable (dateInBounds d) :=
  inferInstanceAs
    (Decidable (dateVal ⟨2024, 9, 15⟩ ≤ dateVal d ∧ dateVal d ≤ dateVal ⟨2026, 1, 15⟩))

/-! ### Claims -/

/-- C1 (counterexample): for the unmapped status "Cancelado" the resolver
itself does not fail: `df['status'].map(status_colors)` completes and puts a
missing value (`NaN`, here `none`) in the color column.  The failure happens
downstream, at trace construction: `go.Scatter` rejects the missing line
color (a plotly `ValueError`, not an `UnmappedStatusError` raised by the
resolver) and the run aborts with no figure. -/
theorem c1_counterexample :
    colorColumn [faseCancelada] = [none] ∧
    mkTrace [] faseCancelada ⟨2026, 10, 1⟩ ⟨2026, 12, 31⟩ = none ∧
    buildChart [faseCancelada] = none := by decide

/-- C1 (amended): resolving a status outside the three known values does not
itself raise `UnmappedStatusError` — it yields a missing value (`NaN`) — but
the failure then surfaces at render time, when `go.Scatter` rejects the
missing line color: that error propagates (any run whose phases include such
a status aborts, producing no artifact), and no default color value is ever
silently substituted. -/
theorem c1_unmapped_status (s : String)
    (h1 : s ≠ "Implementado") (h2 : s ≠ "Em Andamento") (h3 : s ≠ "Previsto") :
    resolveColor s = none ∧
    ∀ (phases : List PhaseRecord) (p : PhaseRecord), p ∈ phases → p.status = s →
      buildChart phases = none := by
  have e1 : (s == "Implementado") = false := by simp [beq_eq_false_iff_ne, h1]
  have e2 : (s == "Em Andamento") = false := by simp [beq_eq_false_iff_ne, h2]
  have e3 : (s == "Previsto") = false := by simp [beq_eq_false_iff_ne, h3]
  have hres : resolveColor s = none := by
    rw [resolveColor, status_colors]
    simp only [List.lookup, e1, e2, e3]
  refine ⟨hres, ?_⟩
  intro phases p hp hs
  cases hi : parseDates (fun p => p.inicio) phases with
  | none =>
    cases hf : parseDates (fun p => p.fim) phases <;> simp [buildChart, hi, hf]
  | some inicios =>
    cases hf : parseDates (fun p => p.fim) phases with
    | none => simp [buildChart, hi, hf]
    | some fims =>
      have hlen : phases.length ≤ (inicios.zip fims).length := by
        simp [List.length_zip, parseDates_length _ _ _ hi, parseDates_length _ _ _ hf]
      have hun : buildTraces (phases.zip (inicios.zip fims)) = none := by
        rw [buildTraces]
        apply buildTracesAux_unmapped
        have hmem : s ∈ (phases.zip (inicios.zip fims)).map (fun x => x.1.status) := by
          rw [zip_statuses _ _ hlen]
          exact hs ▸ List.mem_map_of_mem (fun p => p.status) hp
        obtain ⟨x, hx, hxs⟩ := List.mem_map.1 hmem
        exact ⟨x, hx, by rw [hxs, hres]⟩
      simp [buildChart, hi, hf, hun]

/-- C1 witness: the amended theorem at status "Cancelado": resolution yields
the missing value, and the run containing the cancelled phase aborts. -/
theorem c1_unmapped_status_witness :
    resolveColor "Cancelado" = none ∧ buildChart [faseCancelada] = none :=
  ⟨(c1_unmapped_status "Cancelado" (by decide) (by decide) (by decide)).1,
    (c1_unmapped_status "Cancelado" (by decide) (by decide) (by decide)).2
      [faseCancelada] faseCancelada (by decide) rfl⟩

/-- C2: in every rendered figure the legend (the traces with `showlegend`
true) lists each distinct status exactly once, first-occurrence-wins, in input
row order; a trace at index `i` shows in the legend iff its status does not
occur among the first `i` phases; and there is one trace (segment) per
phase. -/
theorem c2_legend_dedup (phases : List PhaseRecord) (fig : Figure)
    (h : buildChart phases = some fig) :
    ((fig.traces.filter (fun t => t.showlegend)).map (fun t => t.name) =
        firstOccurrences (phases.map (fun p => p.status))) ∧
    ((fig.traces.filter (fun t => t.showlegend)).map (fun t => t.name)).Nodup ∧
    (∀ s, s ∈ (fig.traces.filter (fun t => t.showlegend)).map (fun t => t.name) ↔
        s ∈ phases.map (fun p => p.status)) ∧
    (∀ i t, fig.traces.get? i = some t →
        (t.showlegend = true ↔ t.name ∉ (phases.take i).map (fun p => p.status))) ∧
    fig.traces.length = phases.length := by
  obtain ⟨inicios, fims, hi, hf, ht, _, _, _⟩ := buildChart_elim phases fig h
  have hli := parseDates_length _ _ _ hi
  have hlf := parseDates_length _ _ _ hf
  have hlen : phases.length ≤ (inicios.zip fims).length := by
    simp [List.length_zip, hli, hlf]
  rw [buildTraces] at ht
  have hleg : (fig.traces.filter (fun t => t.showlegend)).map (fun t => t.name) =
      firstOccurrences (phases.map (fun p => p.status)) := by
    rw [buildTracesAux_legend _ [] fig.traces ht]
    simp only [List.filter_nil, List.map_nil, List.nil_append]
    rw [zip_statuses phases (inicios.zip fims) hlen]
    rfl
  refine ⟨hleg, ?_, ?_, ?_, ?_⟩
  · rw [hleg]; exact nodup_firstOccAux _ _
  · intro s
    rw [hleg, firstOccurrences, mem_firstOccAux]
    simp
  · intro i t htr
    have hq := buildTracesAux_get? (phases.zip (inicios.zip fims)) [] fig.traces i ht
    simp only [List.length_nil, Nat.zero_add, List.map_nil, List.nil_append] at hq
    rw [hq] at htr
    cases hx : (phases.zip (inicios.zip fims)).get? i with
    | none => rw [hx] at htr; exact absurd htr (by simp)
    | some x =>
      rw [hx] at htr
      simp only [Option.some_bind] at htr
      obtain ⟨hname, hshow, _⟩ := mkTrace_eq_some htr
      have hseen : ((phases.zip (inicios.zip fims)).take i).map (fun y => y.1.status) =
          (phases.take i).map (fun p => p.status) := by
        rw [List.map_take, zip_statuses phases (inicios.zip fims) hlen, List.map_take]
      rw [hname, hshow, hseen, decide_eq_true_iff]
  · have hl := buildTracesAux_length _ [] fig.traces ht
    simp only [List.length_nil, Nat.zero_add] at hl
    rw [hl]
    simp [List.length_zip, hli, hlf]

/-- C2 witness: the spec's two-phase input, both phases "Implementado":
exactly one legend entry and two segments. -/
theorem c2_legend_dedup_witness :
    ∃ fig, buildChart demoPhases = some fig ∧
      (fig.traces.filter (fun t => t.showlegend)).map (fun t => t.name) =
        ["Implementado"] ∧
      fig.traces.length = 2 := by
  refine ⟨_, rfl, ?_, ?_⟩
  · rw [(c2_legend_dedup demoPhases _ rfl).1]; rfl
  · rw [(c2_legend_dedup demoPhases _ rfl).2.2.2.2]; rfl

/-- C3 (counterexample): a phase whose start date is after its end date is
not rejected: both dates parse, start exceeds end, and the pipeline still
produces a figure. -/
theorem c3_counterexample :
    parseDate faseInvertida.inicio = some ⟨2025, 12, 31⟩ ∧
    parseDate faseInvertida.fim = some ⟨2025, 1, 1⟩ ∧
    dateVal ⟨2025, 1, 1⟩ < dateVal ⟨2025, 12, 31⟩ ∧
    (buildChart [faseInvertida]).isSome = true := by decide

/-- C3 (amended): the pipeline performs no date-order validation: it accepts
and renders every phase list whose start and end dates parse and whose
statuses are all in the color table, regardless of whether
`start_date ≤ end_date` holds. -/
theorem c3_no_date_order_check (phases : List PhaseRecord)
    (h : ∀ p ∈ phases, (parseDate p.inicio).isSome ∧ (parseDate p.fim).isSome ∧
        (resolveColor p.status).isSome) :
    (buildChart phases).isSome := by
  have h1 := parseDates_isSome (fun p => p.inicio) phases (fun p hp => (h p hp).1)
  have h2 := parseDates_isSome (fun p => p.fim) phases (fun p hp => (h p hp).2.1)
  cases hi : parseDates (fun p => p.inicio) phases with
  | none => rw [hi] at h1; exact absurd h1 (by simp)
  | some inicios =>
    cases hf : parseDates (fun p => p.fim) phases with
    | none => rw [hf] at h2; exact absurd h2 (by simp)
    | some fims =>
      have hcolors : ∀ x ∈ phases.zip (inicios.zip fims),
          (resolveColor x.1.status).isSome := by
        intro x hx
        obtain ⟨p', ds⟩ := x
        exact (h p' (List.mem_zip hx).1).2.2
      have ht := buildTracesAux_isSome (phases.zip (inicios.zip fims)) [] hcolors
      cases hbt : buildTraces (phases.zip (inicios.zip fims)) with
      | none =>
        rw [buildTraces] at hbt
        rw [hbt] at ht
        exact absurd ht (by simp)
      | some traces => simp [buildChart, hi, hf, hbt]

/-- C3 witness: the amended theorem evaluated at the reversed-dates phase:
it is accepted and rendered although its start exceeds its end. -/
theorem c3_no_date_order_check_witness :
    (parseDate faseInvertida.inicio).isSome ∧ (buildChart [faseInvertida]).isSome :=
  ⟨by decide, c3_no_date_order_check [faseInvertida] (by decide)⟩

/-- C4: the rendered x-axis extent is exactly the hardcoded bounds
`("2024-09-15", "2026-01-15")` passed to `update_xaxes`, for every phase list
(in particular when all phase dates lie inside those bounds) — never the
minimum/maximum of the data. -/
theorem c4_axis_clamped (phases : List PhaseRecord) (fig : Figure)
    (h : buildChart phases = some fig)
    (_hin : ∀ p ∈ phases, ∃ di df, parseDate p.inicio = some di ∧
        parseDate p.fim = some df ∧ dateInBounds di ∧ dateInBounds df) :
    fig.xaxisRange = ("2024-09-15", "2026-01-15") := by
  obtain ⟨inicios, fims, _, _, _, _, _, hrange⟩ := buildChart_elim phases fig h
  exact hrange

/-- C4 witness: the five-phase dataset, whose dates all lie strictly inside
the bounds; the axis extent is the bounds, not the data extent. -/
theorem c4_axis_clamped_witness :
    ∃ fig, buildChart fases = some fig ∧
      fig.xaxisRange = ("2024-09-15", "2026-01-15") := by
  refine ⟨_, rfl, c4_axis_clamped fases _ rfl ?_⟩
  intro p hp
  simp only [fases, List.mem_cons, List.not_mem_nil, or_false] at hp
  rcases hp with rfl | rfl | rfl | rfl | rfl
  · exact ⟨⟨2024, 10, 1⟩, ⟨2024, 12, 31⟩, by decide, by decide, by decide, by decide⟩
  · exact ⟨⟨2025, 1, 1⟩, ⟨2025, 3, 31⟩, by decide, by decide, by decide, by decide⟩
  · exact ⟨⟨2025, 4, 1⟩, ⟨2025, 6, 30⟩, by decide, by decide, by decide, by decide⟩
  · exact ⟨⟨2025, 7, 1⟩, ⟨2025, 9, 30⟩, by decide, by decide, by decide, by decide⟩
  · exact ⟨⟨2025, 10, 1⟩, ⟨2025, 12, 31⟩, by decide, by decide, by decide, by decide⟩

/-- C5: the categorical y-axis order is the `nome` column in input row order
(`categoryorder='array'` with `categoryarray=df['nome'].tolist()`), never a
sorted order. -/
theorem c5_row_order (phases : List PhaseRecord) (fig : Figure)
    (h : buildChart phases = some fig) :
    fig.categoryOrder = "array" ∧
    fig.categoryArray = phases.map (fun p => p.nome) := by
  obtain ⟨inicios, fims, _, _, _, hord, harr, _⟩ := buildChart_elim phases fig h
  exact ⟨hord, harr⟩

/-- C5 witness: the five-phase dataset keeps its input order on the y axis. -/
theorem c5_row_order_witness :
    ∃ fig, buildChart fases = some fig ∧
      fig.categoryArray = ["Fase 1", "Fase 2A", "Fase 2B", "Fase 3A", "Fase 3B"] := by
  refine ⟨_, rfl, ?_⟩
  rw [(c5_row_order fases _ rfl).2]
  rfl

/-- A concrete table with embedded commas, embedded quotes and accented
characters, as in the comparison datasets of `script.py`. -/
def tabelaAcentos : Table :=
  { header := ["Aspecto", "Descrição"]
    rows :=
      [ ["Formato, de \"Dados\"", "XML estruturado disponível"],
        ["Declaração Única", "Não - apenas via API"] ] }

/-- A concrete slice of the `df_comparacao` table of `script.py`. -/
def tabelaComparacao : Table :=
  { header := ["Aspecto", "DI (Declaração de Importação)",
      "DUIMP (Declaração Única de Importação)"]
    rows :=
      [ ["Definição", "Documento principal do despacho aduaneiro",
          "Documento eletrônico que integra informações"] ] }

/-- C6: exporting any table (with at least one column) to delimited text and
re-parsing it with the standard delimited-text reader yields exactly the
original scalar values, in the original row and column order, with no
character loss — including cells with embedded commas, quotes, line breaks
and accented Unicode characters. -/
theorem c6_round_trip (t : Table) (hh : t.header ≠ []) (hr : ∀ r ∈ t.rows, r ≠ []) :
    (parseCsv (exportCsv t)).map (fun r => r.map String.mk) = t.header :: t.rows := by
  have hne : ∀ r ∈ (t.header :: t.rows).map (fun r => r.map (fun s => s.data)), r ≠ [] := by
    intro r hrm
    rcases List.mem_map.1 hrm with ⟨x, hx, rfl⟩
    rcases List.mem_cons.1 hx with rfl | hx'
    · simp only [ne_eq, List.map_eq_nil]
      exact hh
    · simp only [ne_eq, List.map_eq_nil]
      exact hr x hx'
  rw [exportCsv, parseCsv_writeRows _ hne, List.map_map]
  have hid : ((fun r : List (List Char) => r.map String.mk) ∘
      (fun r : List String => r.map (fun s => s.data))) = id := by
    funext r
    simp only [Function.comp_apply, List.map_map, id_eq]
    rw [show (String.mk ∘ fun s : String => s.data) = id from rfl, List.map_id]
  rw [hid, List.map_id]

/-- C6 witness: the round trip on a concrete table whose cells contain an
embedded comma, embedded quotes and accented characters. -/
theorem c6_round_trip_witness :
    tabelaAcentos.header ≠ [] ∧
    (parseCsv (exportCsv tabelaAcentos)).map (fun r => r.map String.mk) =
      tabelaAcentos.header :: tabelaAcentos.rows :=
  ⟨by decide, c6_round_trip tabelaAcentos (by decide) (by decide)⟩

/-- C7: color resolution is a pure lookup in the static three-entry table:
"Implementado" always resolves to "#2E8B57", "Em Andamento" to "#1FB8CD",
"Previsto" to "#D2BA4C", and two resolutions of the same status can never
disagree. -/
theorem c7_color_determinism :
    resolveColor "Implementado" = some "#2E8B57" ∧
    resolveColor "Em Andamento" = some "#1FB8CD" ∧
    resolveColor "Previsto" = some "#D2BA4C" ∧
    ∀ s c₁ c₂, resolveColor s = some c₁ → resolveColor s = some c₂ → c₁ = c₂ := by
  refine ⟨rfl, rfl, rfl, ?_⟩
  intro s c₁ c₂ h1 h2
  rw [h1] at h2
  exact Option.some_injective _ h2

/-- C7 witness: the determinism clause evaluated at "Implementado". -/
theorem c7_color_determinism_witness :
    resolveColor "Implementado" = some "#2E8B57" ∧ ("#2E8B57" : String) = "#2E8B57" :=
  ⟨c7_color_determinism.1,
    c7_color_determinism.2.2.2 "Implementado" "#2E8B57" "#2E8B57"
      c7_color_determinism.1 c7_color_determinism.1⟩

/-- C8: building a table from a record sequence preserves the row count, keeps
the rows in input order (row `i` of the table is record `i`'s fields), and
lays the columns out in the records' field declaration order. -/
theorem c8_build_table (rs : List PhaseRecord) :
    (buildTable rs).rows.length = rs.length ∧
    (∀ i, (buildTable rs).rows.get? i = (rs.get? i).map phaseToRow) ∧
    (buildTable rs).header = phaseFields := by
  refine ⟨by simp [buildTable], fun i => ?_, rfl⟩
  simp [buildTable, List.get?_map]

/-- C9: the hover string of the trace rendered for phase `i` embeds that
phase's modal, status and period label verbatim, as contiguous substrings in
an otherwise fixed template. -/
theorem c9_hover_verbatim (phases : List PhaseRecord) (fig : Figure)
    (p : PhaseRecord) (i : Nat) (h : buildChart phases = some fig)
    (hp : phases.get? i = some p) :
    ∃ a b c d, (fig.traces.get? i).map (fun t => t.hovertemplate) =
      some (a ++ p.modal ++ b ++ p.status ++ c ++ p.periodo ++ d) := by
  obtain ⟨inicios, fims, hi, hf, ht, _, _, _⟩ := buildChart_elim phases fig h
  have hli := parseDates_length _ _ _ hi
  have hlf := parseDates_length _ _ _ hf
  have hlen : phases.length ≤ (inicios.zip fims).length := by
    simp [List.length_zip, hli, hlf]
  rw [buildTraces] at ht
  refine ⟨"<b>%\x7by\x7d</b><br>" ++ "Modal: ", "<br>" ++ "Status: ",
    "<br>" ++ "Período: ", "<br>" ++ "<extra></extra>", ?_⟩
  have hmap : fig.traces.map (fun t => t.hovertemplate) = phases.map hoverText := by
    rw [buildTracesAux_hover _ [] fig.traces ht]
    simp only [List.map_nil, List.nil_append]
    rw [show (fun x : PhaseRecord × Date × Date => hoverText x.1) =
        hoverText ∘ Prod.fst from rfl, ← List.map_map,
      zip_phases phases (inicios.zip fims) hlen]
  have hget : (fig.traces.get? i).map (fun t => t.hovertemplate) =
      some (hoverText p) := by
    rw [← List.get?_map, hmap, List.get?_map, hp]
    rfl
  rw [hget]
  simp [hoverText, String.append_assoc]

/-- C9 witness: the first phase of the dataset; its hover string embeds
"Modal Marítimo", "Implementado" and "Out-Dez 2024" verbatim. -/
theorem c9_hover_verbatim_witness :
    ∃ fig, buildChart fases = some fig ∧
      ∃ a b c d, (fig.traces.get? 0).map (fun t => t.hovertemplate) =
        some (a ++ "Modal Marítimo" ++ b ++ "Implementado" ++ c ++ "Out-Dez 2024" ++ d) :=
  ⟨_, rfl, c9_hover_verbatim fases _
    ⟨"Fase 1", "Out-Dez 2024", "Modal Marítimo", "Implementado", "2024-10-01", "2024-12-31"⟩
    0 rfl rfl⟩

/-- C10: every CSV file the exporter writes consists of exactly one header
row (the column names in declared order) followed by one line per table row —
`index=False`, so no extra index column: every parsed record has exactly the
table's column count. -/
theorem c10_header_no_index (t : Table) (hh : t.header ≠ [])
    (hr : ∀ r ∈ t.rows, r ≠ []) (hw : ∀ r ∈ t.rows, r.length = t.header.length) :
    parseCsv (exportCsv t) =
      (t.header :: t.rows).map (fun r => r.map (fun s => s.data)) ∧
    (parseCsv (exportCsv t)).length = t.rows.length + 1 ∧
    (∀ r ∈ parseCsv (exportCsv t), r.length = t.header.length) := by
  have hne : ∀ r ∈ (t.header :: t.rows).map (fun r => r.map (fun s => s.data)), r ≠ [] := by
    intro r hrm
    rcases List.mem_map.1 hrm with ⟨x, hx, rfl⟩
    rcases List.mem_cons.1 hx with rfl | hx'
    · simp only [ne_eq, List.map_eq_nil]
      exact hh
    · simp only [ne_eq, List.map_eq_nil]
      exact hr x hx'
  have hmain : parseCsv (exportCsv t) =
      (t.header :: t.rows).map (fun r => r.map (fun s => s.data)) := by
    rw [exportCsv, parseCsv_writeRows _ hne]
  refine ⟨hmain, ?_, ?_⟩
  · rw [hmain]
    simp
  · intro r hrm
    rw [hmain] at hrm
    rcases List.mem_map.1 hrm with ⟨x, hx, rfl⟩
    rcases List.mem_cons.1 hx with rfl | hx'
    · simp
    · simp [hw x hx']

/-- C10 witness: a concrete comparison table: the export parses back as one
header line plus one data line, all records three columns wide. -/
theorem c10_header_no_index_witness :
    tabelaComparacao.header ≠ [] ∧
    (parseCsv (exportCsv tabelaComparacao)).length = 2 := by
  refine ⟨by decide, ?_⟩
  rw [(c10_header_no_index tabelaComparacao (by decide) (by decide) (by decide)).2.1]
  rfl
